import Mathlib

/-!
Verification development for the Atomic-AI Acoustix-Pulse repository.

The repository is a monorepo: a React Native mobile client
(AcoustixPulse/, present in the source tree) and a FastAPI backend
(Respiratory_Disease_Classifier_API/, described by the repository
README files but whose Python sources are not in the tree).  The
mobile-client modules (services/storage.ts, app/results.tsx) are
embedded directly from their TypeScript source.  The backend pipeline
(decoder, fixed-duration normalizer, feature extractor, statistical
aggregator, random-forest classifier, LRU prediction cache) is
modelled from the specification, as its code is absent; every such
definition carries a doc comment saying so.

All numeric amplitudes, probabilities and statistics are modelled as
rationals; machine floating point is abstracted by rational
arithmetic, and the standard-deviation style summary statistics are
passed as an explicit function parameter where their exact numeric
definition is irrational.
-/

set_option autoImplicit false

namespace AcoustixPulse

/-! ## Mobile client: services/storage.ts -/

/-- UserProfile from services/storage.ts: three numeric-or-null
biometric fields (age, height in cm, weight in kg).  A JavaScript
null is modelled as none. -/
structure UserProfile where
  age : Option Rat
  height : Option Rat
  weight : Option Rat
deriving Repr, DecidableEq

/-- AnalysisRecord from services/storage.ts: one classification
result kept in the session history, stamped with the clock value at
insertion time. -/
structure AnalysisRecord where
  prediction : String
  confidence : Rat
  all_probabilities : List (String × Rat)
  timestamp : Nat
deriving Repr, DecidableEq

/-- Input to addAnalysis: an AnalysisRecord without its timestamp
(the Omit type in services/storage.ts). -/
structure AnalysisInput where
  prediction : String
  confidence : Rat
  all_probabilities : List (String × Rat)
deriving Repr, DecidableEq

/-- Attaching the current clock value to an analysis input, mirroring
the object literal built inside addAnalysis (spread of the record plus
a Date.now() timestamp). -/
def stampRecord (r : AnalysisInput) (now : Nat) : AnalysisRecord :=
  ⟨r.prediction, r.confidence, r.all_probabilities, now⟩

/-- addAnalysis from services/storage.ts: prepend the stamped record
to the module-level list and keep at most the first 20 entries
(the slice(0, 20) call). -/
def addAnalysis (r : AnalysisInput) (now : Nat) (st : List AnalysisRecord) :
    List AnalysisRecord :=
  (stampRecord r now :: st).take 20

/-- getAnalyses from services/storage.ts returns the stored history
list (the value of the freshly spread copy). -/
def getAnalyses (st : List AnalysisRecord) : List AnalysisRecord := st

/-- getLastAnalysis from services/storage.ts: the first element of
the stored list, or null when the list is empty. -/
def getLastAnalysis (st : List AnalysisRecord) : Option AnalysisRecord :=
  st.head?

/-- Running a sequence of addAnalysis calls against the module-level
store, which starts as the empty list.  Each call supplies the record
fields and the Date.now() value observed at that call. -/
def runAdds (calls : List (AnalysisInput × Nat)) : List AnalysisRecord :=
  calls.foldl (fun st c => addAnalysis c.1 c.2 st) []

/-! ## Mobile client: copy semantics of the storage getters

The TypeScript getters return spread copies of module state; to state
that mutating the returned object cannot change the stored state we
model object identity with a tiny heap of numbered cells.  An address
is an index into the heap list, allocation appends a cell, and a
mutation writes at one address. -/

/-- Heap read at an address, with a default for out-of-range
addresses. -/
def hGet {α : Type} (h : List α) (a : Nat) (d : α) : α :=
  h.getD a d

/-- Heap write at an address (List.set leaves the heap unchanged when
the address is out of range, like a store into a dangling cell would
be unobservable). -/
def hSet {α : Type} (h : List α) (a : Nat) (v : α) : List α :=
  h.set a v

/-- Heap allocation: the fresh cell is appended and its address (the
old length) is returned. -/
def hAlloc {α : Type} (h : List α) (v : α) : Nat × List α :=
  (h.length, h ++ [v])

/-- Field-by-field reconstruction of a UserProfile, mirroring the
object spread in getProfile of services/storage.ts: the returned
object is a fresh one holding the same field values. -/
def copyProfile (p : UserProfile) : UserProfile :=
  ⟨p.age, p.height, p.weight⟩

/-- getProfile from services/storage.ts over the heap model: read the
stored profile cell, allocate a fresh cell holding a copy, and hand
the caller the fresh address. -/
def getProfileH (h : List UserProfile) (stored : Nat) :
    Nat × List UserProfile :=
  hAlloc h (copyProfile (hGet h stored ⟨none, none, none⟩))

/-- getAnalyses from services/storage.ts over the heap model: the
stored array cell is copied (the array spread) into a fresh cell whose
address is handed to the caller. -/
def getAnalysesH (h : List (List AnalysisRecord)) (stored : Nat) :
    Nat × List (List AnalysisRecord) :=
  hAlloc h (hGet h stored [])

/-- Argument of setProfile in services/storage.ts: a profile patch in
which each field may be absent (absent keys of the TypeScript
Partial type).  A present field carries the new numeric-or-null
value. -/
structure ProfilePatch where
  age : Option (Option Rat)
  height : Option (Option Rat)
  weight : Option (Option Rat)
deriving Repr, DecidableEq

/-- setProfile from services/storage.ts: the double object spread
keeps every stored field and overwrites exactly the fields present in
the patch. -/
def setProfile (patch : ProfilePatch) (p : UserProfile) : UserProfile :=
  ⟨patch.age.getD p.age, patch.height.getD p.height, patch.weight.getD p.weight⟩

/-! ## Mobile client: app/results.tsx recording configuration -/

/-- IOS recording options of the RECORDING_OPTIONS constant in
app/results.tsx (the Linear PCM override of the HIGH_QUALITY
preset). -/
structure IosRecordingOptions where
  sampleRate : Nat
  numberOfChannels : Nat
  linearPCMBitDepth : Nat
  linearPCMIsBigEndian : Bool
  linearPCMIsFloat : Bool
deriving Repr, DecidableEq

/-- RECORDING_OPTIONS.ios from app/results.tsx: Linear PCM recording
at 44100 Hz, one channel, 16-bit little-endian integer samples. -/
def recordingOptionsIos : IosRecordingOptions :=
  ⟨44100, 1, 16, false, false⟩

/-! ## Backend: audio decoder and loader

The FastAPI backend sources are not in the tree; the decoder is
modelled from the specification (section 4.1 of the design document):
it turns raw uploaded bytes into a mono sample sequence resampled to
the fixed 16 kHz target rate, and fails with DecodeError exactly when
the bytes are empty, the container or codec is unrecognized, or the
low-level decoding library throws. -/

/-- Modelled from the spec: the fixed target sample rate of the
primary respiratory classifier (16 kHz). -/
def targetRate : Nat := 16000

/-- Modelled from the spec: a raw uploaded audio payload.  The byte
content is the data list; whether the container or codec is
recognized and whether the low-level decoder throws are recorded as
observable flags, since the codec-probing code itself is not in the
tree.  The pcm field holds the mono samples the payload would decode
to at its source rate. -/
structure RawAudio where
  data : List Nat
  codecOk : Bool
  lowLevelFail : Bool
  pcm : List Rat
  srcRate : Nat
deriving Repr, DecidableEq

/-- Modelled from the spec: the DecodeError taxonomy of section 7 —
empty payload, unrecognized container or codec, or a low-level
decoding failure. -/
inductive DecodeErr where
  | emptyPayload
  | unrecognizedFormat
  | lowLevelFailure
deriving Repr, DecidableEq

/-- Modelled from the spec: a decoded mono audio sample sequence
together with its sample rate. -/
structure AudioSample where
  samples : List Rat
  sampleRate : Nat
deriving Repr, DecidableEq

/-- Modelled from the spec: a resampler turning a sample sequence at
a source rate into one at the 16 kHz target rate.  Its numeric
content is interpolation arithmetic absent from the tree, so it is a
parameter of the decoder. -/
def Resampler : Type := List Rat → Nat → List Rat

/-- Modelled from the spec: the audio decoder.  Empty bytes, an
unrecognized codec, or a low-level failure yield DecodeError;
otherwise the payload decodes to its mono samples resampled to the
fixed 16 kHz target rate regardless of the source rate. -/
def decode (rs : Resampler) (b : RawAudio) : Except DecodeErr AudioSample :=
  if b.data = [] then .error .emptyPayload
  else if b.codecOk = false then .error .unrecognizedFormat
  else if b.lowLevelFail = true then .error .lowLevelFailure
  else .ok ⟨rs b.pcm b.srcRate, targetRate⟩

/-- Whether an Except value is an error. -/
def isErr {ε α : Type} : Except ε α → Bool
  | .error _ => true
  | .ok _ => false

/-! ## Backend: fixed-duration normalizer

Modelled from the specification (section 4.2): the training-time
duration constant is 7.856 seconds, and the normalizer returns
exactly duration times sample-rate samples, truncating from the
start when the input is longer and right-padding with zeros when it
is shorter. -/

/-- Modelled from the spec: the target sample count for a given
sample rate, duration 7.856 s expressed as the exact rational
7856/1000 with the usual integer truncation of a float sample
count. -/
def targetLen (sr : Nat) : Nat := 7856 * sr / 1000

/-- Modelled from the spec: the fixed-duration normalizer.  Keep the
first n samples when the input is at least that long, otherwise
append zeros on the right up to length n. -/
def normalizeDuration (n : Nat) (xs : List Rat) : List Rat :=
  if n ≤ xs.length then xs.take n
  else xs ++ List.replicate (n - xs.length) 0

/-! ## Backend: feature extraction and statistical aggregation

Modelled from the specification (sections 4.3 and 4.4) and the
embedded backend README: eight librosa descriptor families are
computed per analysis frame, then each selected series is reduced to
one of four summary statistics (mean, standard deviation, maximum,
minimum) and the 30 resulting scalars are concatenated in a frozen
order fixed at training time. -/

/-- Modelled from the spec: one named per-frame descriptor series.
Multi-band descriptors carry the band or coefficient index (12
chroma pitch classes, 13 mel cepstral coefficients, mel band
energies, per-sub-band spectral contrast). -/
inductive Descriptor where
  | chroma (band : Fin 12)
  | mfcc (coeff : Fin 13)
  | melSpectrogram
  | spectralContrast
  | spectralCentroid
  | spectralBandwidth
  | spectralRolloff
  | zeroCrossingRate
deriving Repr, DecidableEq

/-- Modelled from the spec: the four summary statistics of the
statistical aggregator. -/
inductive StatKind where
  | sMean
  | sStd
  | sMax
  | sMin
deriving Repr, DecidableEq

/-- Modelled from the spec: an extractor mapping the normalized
signal to the per-frame series of each descriptor.  The short-time
Fourier and mel-filter arithmetic is frozen-hyperparameter numeric
code absent from the tree, so the extractor is treated as an
explicit function parameter of the aggregation stage. -/
def Extractor : Type := List Rat → Descriptor → List Rat

/-- Modelled from the spec: the numeric evaluation of one summary
statistic over a series.  Machine floating-point standard deviation
has no exact rational value, so the evaluation map is a parameter;
the aggregator only fixes which statistic of which series each
column holds. -/
def StatFn : Type := StatKind → List Rat → Rat

/-- Modelled from the spec: the frozen 30-entry column table of the
feature vector — which statistic of which descriptor series each
column holds, in the order fixed at model-training time.  The exact
training-time order is a frozen contract not rederivable from data;
the table below realizes the documented shape: 30 columns, each the
mean, standard deviation, maximum or minimum of one descriptor
series. -/
def featureColumns : List (Descriptor × StatKind) :=
  [ (.chroma 0, .sMean), (.chroma 0, .sStd), (.chroma 0, .sMax), (.chroma 0, .sMin),
    (.mfcc 0, .sMean), (.mfcc 0, .sStd), (.mfcc 0, .sMax), (.mfcc 0, .sMin),
    (.melSpectrogram, .sMean), (.melSpectrogram, .sStd),
    (.melSpectrogram, .sMax), (.melSpectrogram, .sMin),
    (.spectralContrast, .sMean), (.spectralContrast, .sStd),
    (.spectralContrast, .sMax), (.spectralContrast, .sMin),
    (.spectralCentroid, .sMean), (.spectralCentroid, .sStd),
    (.spectralCentroid, .sMax), (.spectralCentroid, .sMin),
    (.spectralBandwidth, .sMean), (.spectralBandwidth, .sStd),
    (.spectralBandwidth, .sMax), (.spectralBandwidth, .sMin),
    (.spectralRolloff, .sMean), (.spectralRolloff, .sStd),
    (.spectralRolloff, .sMax), (.spectralRolloff, .sMin),
    (.zeroCrossingRate, .sMean), (.zeroCrossingRate, .sStd) ]

/-- Modelled from the spec: the statistical aggregator.  For each
frozen column, apply the column's statistic to the column's
descriptor series over the given per-frame values. -/
def aggregate (stat : StatFn) (frames : Descriptor → List Rat) : List Rat :=
  featureColumns.map (fun c => stat c.2 (frames c.1))

/-- Modelled from the spec: the feature vector of a raw (arbitrary
length) sample sequence — normalize to the fixed duration at the
16 kHz target rate, extract per-frame descriptor series, and
aggregate into the frozen 30-column vector. -/
def featureVector (stat : StatFn) (ext : Extractor) (samples : List Rat) :
    List Rat :=
  aggregate stat (ext (normalizeDuration (targetLen targetRate) samples))

/-! ## Backend: ensemble classifier

Modelled from the specification (section 4.5) and the embedded
backend README: a pre-trained random forest over the fixed closed set
of eight respiratory condition labels.  Each constituent decision
tree votes one class index; the class probability is the fraction of
trees voting that class (the averaged vote), and the prediction is
the arg-max label with its probability as the confidence. -/

/-- Modelled from the spec: the fixed closed set of class labels of
the respiratory classifier, in index order. -/
def classLabels : List String :=
  ["Asthma", "Bronchiectasis", "Bronchiolitis", "COPD",
   "Healthy", "LRTI", "Pneumonia", "URTI"]

/-- Modelled from the spec: a pre-trained ensemble — a list of
decision trees, each mapping a feature vector to the index of the
class it votes for.  The trained split thresholds are an opaque
artifact, so each tree is an abstract function. -/
structure ForestModel where
  trees : List (List Rat → Fin 8)

/-- Votes of every tree of the ensemble on one feature vector. -/
def votes (m : ForestModel) (v : List Rat) : List (Fin 8) :=
  m.trees.map (fun t => t v)

/-- Modelled from the spec: the probability of one class is the
fraction of constituent trees voting for it. -/
def classProb (m : ForestModel) (v : List Rat) (i : Fin 8) : Rat :=
  ((votes m v).count i : Rat) / (m.trees.length : Rat)

/-- Arg-max over the eight class indices: fold over the remaining
indices keeping the earliest index of maximal score. -/
def argmaxFin (f : Fin 8 → Rat) : Fin 8 :=
  [1, 2, 3, 4, 5, 6, 7].foldl (fun best i => if f best < f i then i else best) 0

/-- Index of the predicted class: arg-max of the class
probabilities. -/
def bestClass (m : ForestModel) (v : List Rat) : Fin 8 :=
  argmaxFin (fun i => classProb m v i)

/-- Modelled from the spec: the full mapping from every class name to
its probability, in the fixed label order. -/
def probList (m : ForestModel) (v : List Rat) : List (String × Rat) :=
  [("Asthma", classProb m v 0), ("Bronchiectasis", classProb m v 1),
   ("Bronchiolitis", classProb m v 2), ("COPD", classProb m v 3),
   ("Healthy", classProb m v 4), ("LRTI", classProb m v 5),
   ("Pneumonia", classProb m v 6), ("URTI", classProb m v 7)]

/-- ClassificationResult: predicted label, its confidence, and the
full probability mapping (the PredictionResponse shape of
services/api.ts). -/
structure ClassificationResult where
  prediction : String
  confidence : Rat
  all_probabilities : List (String × Rat)
deriving Repr, DecidableEq

/-- Modelled from the spec: the InferenceError raised on an input
shape mismatch, checked before invoking the underlying inference. -/
inductive InferErr where
  | shapeMismatch
deriving Repr, DecidableEq

/-- Modelled from the spec: predict — defensively check the
30-column input shape, then return the arg-max label, its
probability as the confidence, and the full probability mapping. -/
def predict (m : ForestModel) (v : List Rat) :
    Except InferErr ClassificationResult :=
  if v.length = 30 then
    .ok ⟨classLabels.getD (bestClass m v).val "",
         classProb m v (bestClass m v), probList m v⟩
  else .error .shapeMismatch

/-! ## Backend: prediction cache

Modelled from the specification (section 4.6): a bounded
least-recently-used mapping from audio-byte fingerprint to
classification result.  The entry list is kept in recency order with
the most recently used entry at the front, so the least recently used
entry is the last one. -/

/-- Modelled from the spec: the default maximum entry count of the
prediction cache (the CACHE_MAX_SIZE default of the backend README). -/
def defaultCacheSize : Nat := 128

/-- Modelled from the spec: the bounded prediction cache.  Entries
are fingerprint-value pairs in most-recently-used-first order. -/
structure LruCache (α : Type) where
  entries : List (Nat × α)
  maxSize : Nat

/-- Fingerprint keys of a cache entry list. -/
def keysOf {α : Type} (es : List (Nat × α)) : List Nat :=
  es.map Prod.fst

/-- Lookup of a fingerprint among cache entries. -/
def lookupFp {α : Type} (fp : Nat) (es : List (Nat × α)) : Option α :=
  (es.find? (fun e => e.1 == fp)).map Prod.snd

/-- Modelled from the spec: get_or_compute.  On a hit the stored
result is returned, the entry moves to the front of the recency
order, and compute_fn is not invoked; on a miss compute_fn is invoked
once, the least-recently-used entry is dropped when the cache is at
capacity, and the new entry is inserted at the front.  The third
component counts the compute_fn invocations performed by the call. -/
def getOrCompute {α : Type} (c : LruCache α) (fp : Nat) (compute : Unit → α) :
    α × LruCache α × Nat :=
  match c.entries.find? (fun e => e.1 == fp) with
  | some e =>
      (e.2, ⟨(fp, e.2) :: c.entries.filter (fun e2 => !(e2.1 == fp)), c.maxSize⟩, 0)
  | none =>
      let v := compute ()
      let kept := if c.maxSize ≤ c.entries.length then c.entries.dropLast else c.entries
      (v, ⟨(fp, v) :: kept, c.maxSize⟩, 1)

/-- An empty cache of a given capacity. -/
def emptyCache (α : Type) (cap : Nat) : LruCache α :=
  ⟨[], cap⟩

/-- Feeding a list of fingerprints through get_or_compute in order,
computing the value of each fingerprint with a given function. -/
def insertAll {α : Type} (valOf : Nat → α) (fps : List Nat) (c : LruCache α) :
    LruCache α :=
  fps.foldl (fun c2 fp => (getOrCompute c2 fp (fun _ => valOf fp)).2.1) c

/-! ## Backend: full pipeline -/

/-- Modelled from the spec: the error of a full pipeline run — a
decode failure or an inference failure, propagated fast from the
first failing stage. -/
inductive PipelineErr where
  | decodeFailed (e : DecodeErr)
  | inferenceFailed (e : InferErr)
deriving Repr, DecidableEq

/-- Modelled from the spec: the full audio-to-prediction pipeline:
decode, normalize to the fixed duration, extract per-frame
descriptors, aggregate into the 30-column feature vector, classify. -/
def runPipeline (rs : Resampler) (stat : StatFn) (ext : Extractor)
    (m : ForestModel) (b : RawAudio) : Except PipelineErr ClassificationResult :=
  match decode rs b with
  | .error e => .error (.decodeFailed e)
  | .ok s =>
      match predict m (featureVector stat ext s.samples) with
      | .error e => .error (.inferenceFailed e)
      | .ok r => .ok r

/-! ## Concrete instances used by the witness statements -/

/-- A resampler instance that returns the samples unchanged. -/
def idResampler : Resampler := fun xs _ => xs

/-- A statistics instance that sums the series for every statistic
kind. -/
def sumStat : StatFn := fun _ xs => xs.sum

/-- An extractor instance mapping every descriptor to the first two
samples of the signal. -/
def headExtractor : Extractor := fun sig _ => sig.take 2

/-- A one-tree ensemble always voting the Healthy class (index 4). -/
def demoModel : ForestModel := ⟨[fun _ => (4 : Fin 8)]⟩

/-- A well-formed three-byte uploaded payload decoding to two zero
samples at a 44.1 kHz source rate. -/
def demoAudio : RawAudio := ⟨[1, 2, 3], true, false, [0, 0], 44100⟩

/-- A zero-byte uploaded payload. -/
def emptyAudio : RawAudio := ⟨[], true, false, [], 44100⟩

/-! ## Helper lemmas -/

/-- Taking m of an append absorbs an inner take n when m is at most
n. -/
lemma take_append_take {α : Type} (n : Nat) (xs l : List α) :
    ∀ m, m ≤ n → (xs ++ l.take n).take m = (xs ++ l).take m := by
  induction xs with
  | nil =>
      intro m hmn
      simp [List.take_take, Nat.min_eq_left hmn]
  | cons x t ih =>
      intro m hmn
      cases m with
      | zero => simp
      | succ k => simp [List.take_succ_cons, ih k (Nat.le_of_succ_le hmn)]

/-- Folding addAnalysis over a call list starting from a store of at
most 20 records yields the reverse-insertion-order records appended to
the start store, truncated to 20. -/
lemma runAdds_general (calls : List (AnalysisInput × Nat)) :
    ∀ st : List AnalysisRecord, st.length ≤ 20 →
      calls.foldl (fun s c => addAnalysis c.1 c.2 s) st =
        ((calls.map (fun c => stampRecord c.1 c.2)).reverse ++ st).take 20 := by
  induction calls with
  | nil =>
      intro st hst
      simp [List.take_of_length_le hst]
  | cons c cs ih =>
      intro st hst
      have hlen : (addAnalysis c.1 c.2 st).length ≤ 20 := by
        simp [addAnalysis]
      calc (c :: cs).foldl (fun s c2 => addAnalysis c2.1 c2.2 s) st
      _ = cs.foldl (fun s c2 => addAnalysis c2.1 c2.2 s) (addAnalysis c.1 c.2 st) := rfl
      _ = ((cs.map (fun c2 => stampRecord c2.1 c2.2)).reverse ++
            (stampRecord c.1 c.2 :: st).take 20).take 20 := ih _ hlen
      _ = ((cs.map (fun c2 => stampRecord c2.1 c2.2)).reverse ++
            (stampRecord c.1 c.2 :: st)).take 20 :=
            take_append_take 20 _ _ 20 (Nat.le_refl 20)
      _ = (((c :: cs).map (fun c2 => stampRecord c2.1 c2.2)).reverse ++ st).take 20 := by
            simp

/-- Head of a 20-truncation equals the head of the list. -/
lemma head_take_twenty {α : Type} (l : List α) : (l.take 20).head? = l.head? := by
  cases l <;> rfl

/-- C9: for every sequence of addAnalysis calls on the in-memory
analysis store, getAnalyses returns at most 20 records ordered
most-recent-first (the reverse of insertion order, truncated to 20),
getLastAnalysis returns the most recently added record, and with no
record added getLastAnalysis is null. -/
theorem analysis_history (calls : List (AnalysisInput × Nat)) :
    (getAnalyses (runAdds calls)).length ≤ 20 ∧
    getAnalyses (runAdds calls) =
      ((calls.map (fun c => stampRecord c.1 c.2)).reverse).take 20 ∧
    getLastAnalysis (runAdds calls) =
      (calls.map (fun c => stampRecord c.1 c.2)).getLast? ∧
    getLastAnalysis (runAdds []) = none := by
  have hrun : runAdds calls =
      ((calls.map (fun c => stampRecord c.1 c.2)).reverse).take 20 := by
    have h := runAdds_general calls [] (by simp)
    simpa [runAdds] using h
  refine ⟨?_, ?_, ?_, rfl⟩
  · rw [getAnalyses, hrun]
    simp
  · rw [getAnalyses, hrun]
  · rw [getLastAnalysis, hrun, head_take_twenty, List.head?_reverse]

/-- C1: for every summary-statistic evaluation, extractor and input
sample sequence of any length, the statistical aggregator produces a
feature vector of exactly 30 columns, each column being the frozen
column table's statistic applied to that column's descriptor series
over the duration-normalized signal. -/
theorem feature_vector_columns (stat : StatFn) (ext : Extractor)
    (samples : List Rat) :
    (featureVector stat ext samples).length = 30 ∧
    featureVector stat ext samples =
      featureColumns.map
        (fun c => stat c.2 (ext (normalizeDuration (targetLen targetRate) samples) c.1)) := by
  refine ⟨?_, rfl⟩
  simp only [featureVector, aggregate, List.length_map]
  rfl

/-- C2: for every non-empty sample sequence and sample rate, the
fixed-duration normalizer returns exactly the target sample count for
that rate: the first target-count samples when the input is at least
that long, and the input right-padded with zeros otherwise. -/
theorem normalizer_exact_length (sr : Nat) (xs : List Rat) (_hne : xs ≠ []) :
    (normalizeDuration (targetLen sr) xs).length = targetLen sr ∧
    (targetLen sr ≤ xs.length →
      normalizeDuration (targetLen sr) xs = xs.take (targetLen sr)) ∧
    (xs.length < targetLen sr →
      normalizeDuration (targetLen sr) xs =
        xs ++ List.replicate (targetLen sr - xs.length) 0) := by
  refine ⟨?_, ?_, ?_⟩
  · unfold normalizeDuration
    split
    · rename_i h
      simp [List.length_take, Nat.min_eq_left h]
    · rename_i h
      simp
      omega
  · intro h
    simp [normalizeDuration, h]
  · intro h
    rw [normalizeDuration, if_neg (by omega)]

/-- Witness for C2 at a concrete input: a three-sample sequence at a
one-hertz sample rate (target count 7) is shorter than the target and
is zero-padded to exactly the target count. -/
theorem normalizer_exact_length_witness :
    ([1, 2, 3] : List Rat) ≠ [] ∧
    ((normalizeDuration (targetLen 1) ([1, 2, 3] : List Rat)).length = targetLen 1 ∧
     (targetLen 1 ≤ ([1, 2, 3] : List Rat).length →
       normalizeDuration (targetLen 1) ([1, 2, 3] : List Rat) =
         ([1, 2, 3] : List Rat).take (targetLen 1)) ∧
     (([1, 2, 3] : List Rat).length < targetLen 1 →
       normalizeDuration (targetLen 1) ([1, 2, 3] : List Rat) =
         ([1, 2, 3] : List Rat) ++
           List.replicate (targetLen 1 - ([1, 2, 3] : List Rat).length) 0)) :=
  ⟨by simp, normalizer_exact_length 1 ([1, 2, 3] : List Rat) (by simp)⟩

/-- The profile default used for out-of-range heap reads. -/
def defaultProfile : UserProfile := ⟨none, none, none⟩

/-- Reading a fresh allocation returns the allocated value. -/
lemma hGet_alloc {α : Type} (h : List α) (v d : α) :
    hGet (hAlloc h v).2 (hAlloc h v).1 d = v := by
  simp [hGet, hAlloc, List.getD_eq_getElem?_getD,
    List.getElem?_append_right (Nat.le_refl h.length)]

/-- Writing at a fresh allocation does not change a read below it. -/
lemma hGet_set_alloc {α : Type} (h : List α) (v w d : α) (a : Nat)
    (ha : a < h.length) :
    hGet (hSet (hAlloc h v).2 (hAlloc h v).1 w) a d = hGet h a d := by
  simp only [hGet, hSet, hAlloc, List.getD_eq_getElem?_getD]
  rw [List.getElem?_set_ne (by omega), List.getElem?_append_left ha]

/-- C10: the storage getters hand out fresh copies — the address
returned by getProfile or getAnalyses differs from the stored cell's
address, the copy holds the stored content, and writing through the
returned address leaves the stored cell unchanged; and setProfile
with a patch overwrites exactly the fields present in the patch,
leaving absent fields unchanged. -/
theorem storage_copy_and_merge :
    (∀ (h : List UserProfile) (stored : Nat), stored < h.length →
      (getProfileH h stored).1 ≠ stored ∧
      hGet (getProfileH h stored).2 (getProfileH h stored).1 defaultProfile =
        copyProfile (hGet h stored defaultProfile) ∧
      ∀ v : UserProfile,
        hGet (hSet (getProfileH h stored).2 (getProfileH h stored).1 v) stored
            defaultProfile = hGet h stored defaultProfile) ∧
    (∀ (h : List (List AnalysisRecord)) (stored : Nat), stored < h.length →
      (getAnalysesH h stored).1 ≠ stored ∧
      hGet (getAnalysesH h stored).2 (getAnalysesH h stored).1 [] =
        hGet h stored [] ∧
      ∀ v : List AnalysisRecord,
        hGet (hSet (getAnalysesH h stored).2 (getAnalysesH h stored).1 v) stored [] =
          hGet h stored []) ∧
    (∀ (patch : ProfilePatch) (p : UserProfile),
      (patch.age = none → (setProfile patch p).age = p.age) ∧
      (patch.height = none → (setProfile patch p).height = p.height) ∧
      (patch.weight = none → (setProfile patch p).weight = p.weight) ∧
      (∀ x, patch.age = some x → (setProfile patch p).age = x) ∧
      (∀ x, patch.height = some x → (setProfile patch p).height = x) ∧
      (∀ x, patch.weight = some x → (setProfile patch p).weight = x)) := by
  refine ⟨?_, ?_, ?_⟩
  · intro h stored hs
    refine ⟨by simp [getProfileH, hAlloc]; omega, hGet_alloc h _ _, fun v => ?_⟩
    exact hGet_set_alloc h _ v _ stored hs
  · intro h stored hs
    refine ⟨by simp [getAnalysesH, hAlloc]; omega, hGet_alloc h _ _, fun v => ?_⟩
    exact hGet_set_alloc h _ v _ stored hs
  · intro patch p
    refine ⟨?_, ?_, ?_, ?_, ?_, ?_⟩ <;>
      first
        | (intro hx; simp [setProfile, hx])
        | (intro x hx; simp [setProfile, hx])

/-- A concrete stored profile used by the C10 witness. -/
def profileA : UserProfile := ⟨some 30, some 170, some 70⟩

/-- A concrete overwrite value used by the C10 witness. -/
def profileB : UserProfile := ⟨some 1, some 2, some 3⟩

/-- Witness for C10 at a concrete one-cell heap: writing through the
address handed out by getProfile leaves the stored profile cell
unchanged. -/
theorem storage_copy_and_merge_witness :
    0 < [profileA].length ∧
    hGet (hSet (getProfileH [profileA] 0).2 (getProfileH [profileA] 0).1 profileB) 0
        defaultProfile =
      hGet [profileA] 0 defaultProfile :=
  ⟨by simp, (storage_copy_and_merge.1 [profileA] 0 (by simp)).2.2 profileB⟩

/-- C7: for every resampler and payload, a zero-byte payload makes
the decoder fail with the empty-payload DecodeError, and the decoder
fails exactly when the bytes are empty, the codec or container is
unrecognized, or low-level decoding throws. -/
theorem decode_error_taxonomy (rs : Resampler) (b : RawAudio) :
    (b.data = [] → decode rs b = .error .emptyPayload) ∧
    (isErr (decode rs b) = true ↔
      b.data = [] ∨ b.codecOk = false ∨ b.lowLevelFail = true) := by
  constructor
  · intro h
    simp [decode, h]
  · unfold decode
    by_cases h1 : b.data = []
    · simp [h1, isErr]
    · by_cases h2 : b.codecOk = false
      · simp [h1, h2, isErr]
      · by_cases h3 : b.lowLevelFail = true
        · simp [h1, h2, h3, isErr]
        · simp [h1, h2, h3, isErr]

/-- Witness for C7: the concrete zero-byte payload decodes to the
empty-payload DecodeError. -/
theorem decode_error_taxonomy_witness :
    emptyAudio.data = [] ∧
    decode idResampler emptyAudio = .error .emptyPayload ∧
    (isErr (decode idResampler emptyAudio) = true ↔
      emptyAudio.data = [] ∨ emptyAudio.codecOk = false ∨
        emptyAudio.lowLevelFail = true) :=
  ⟨rfl, (decode_error_taxonomy idResampler emptyAudio).1 rfl,
    (decode_error_taxonomy idResampler emptyAudio).2⟩

/-- C8: the mobile client's alternate capture path records mono audio
at 44.1 kHz (the iOS recording configuration of app/results.tsx), and
every payload the backend decoder accepts comes out at the 16 kHz
target rate regardless of its source rate. -/
theorem capture_rate_and_resample :
    recordingOptionsIos.sampleRate = 44100 ∧
    recordingOptionsIos.numberOfChannels = 1 ∧
    ∀ (rs : Resampler) (b : RawAudio) (s : AudioSample),
      decode rs b = .ok s → s.sampleRate = 16000 := by
  refine ⟨rfl, rfl, ?_⟩
  intro rs b s h
  unfold decode at h
  split at h
  · exact absurd h (by simp)
  · split at h
    · exact absurd h (by simp)
    · split at h
      · exact absurd h (by simp)
      · injection h with h2
        rw [← h2]
        rfl

/-- The decoded form of the demo payload: its two samples at the
16 kHz target rate. -/
def demoSample : AudioSample := ⟨[0, 0], 16000⟩

/-- Witness for C8: the demo payload, recorded at a 44.1 kHz source
rate, decodes to a sample sequence stamped with the 16 kHz target
rate. -/
theorem capture_rate_and_resample_witness :
    decode idResampler demoAudio = .ok demoSample ∧
    demoSample.sampleRate = 16000 :=
  ⟨by simp [decode, demoAudio, idResampler, demoSample, targetRate],
    capture_rate_and_resample.2.2 idResampler demoAudio demoSample
      (by simp [decode, demoAudio, idResampler, demoSample, targetRate])⟩

/-- C6: the full pipeline is deterministic — two byte-identical
payloads yield identical classification outcomes on every invocation,
for every resampler, statistic evaluation, extractor and model, since
no stage of the model introduces randomness. -/
theorem pipeline_deterministic (rs : Resampler) (stat : StatFn)
    (ext : Extractor) (m : ForestModel) (b1 b2 : RawAudio) (h : b1 = b2) :
    runPipeline rs stat ext m b1 = runPipeline rs stat ext m b2 := by
  rw [h]

/-- Witness for C6 at the concrete demo payload and demo model. -/
theorem pipeline_deterministic_witness :
    demoAudio = demoAudio ∧
    runPipeline idResampler sumStat headExtractor demoModel demoAudio =
      runPipeline idResampler sumStat headExtractor demoModel demoAudio :=
  ⟨rfl, pipeline_deterministic idResampler sumStat headExtractor demoModel
    demoAudio demoAudio rfl⟩

/-- Absent fingerprints are exactly those matched by no entry. -/
lemma lookupFp_none_iff {α : Type} (fp : Nat) (es : List (Nat × α)) :
    lookupFp fp es = none ↔ ∀ e ∈ es, ¬e.1 = fp := by
  simp [lookupFp, List.find?_eq_none]

/-- Reduction of get_or_compute on a cache miss. -/
lemma getOrCompute_miss {α : Type} (c : LruCache α) (fp : Nat)
    (compute : Unit → α) (h : lookupFp fp c.entries = none) :
    getOrCompute c fp compute =
      (compute (),
       ⟨(fp, compute ()) ::
          (if c.maxSize ≤ c.entries.length then c.entries.dropLast else c.entries),
        c.maxSize⟩, 1) := by
  have hf : c.entries.find? (fun e => e.1 == fp) = none := by
    simpa [lookupFp] using h
  unfold getOrCompute
  rw [hf]

/-- Reduction of get_or_compute on a cache hit. -/
lemma getOrCompute_hit {α : Type} (c : LruCache α) (fp : Nat)
    (compute : Unit → α) (e : Nat × α)
    (h : c.entries.find? (fun x => x.1 == fp) = some e) :
    getOrCompute c fp compute =
      (e.2, ⟨(fp, e.2) :: c.entries.filter (fun e2 => !(e2.1 == fp)), c.maxSize⟩, 0) := by
  unfold getOrCompute
  rw [h]

/-- The retained entry list of a miss insertion is a sublist of the
previous entries. -/
lemma kept_sublist {α : Type} (cap : Nat) (es : List (Nat × α)) :
    List.Sublist (if cap ≤ es.length then es.dropLast else es) es := by
  split
  · exact es.dropLast_sublist
  · exact List.Sublist.refl es

/-- Feeding fresh distinct fingerprints into a cache within capacity
grows the entry count to the capacity-clamped total. -/
lemma insertAll_length {α : Type} (valOf : Nat → α) (fps : List Nat) :
    ∀ c : LruCache α, fps.Nodup →
      (∀ fp ∈ fps, lookupFp fp c.entries = none) →
      c.entries.length ≤ c.maxSize → 0 < c.maxSize →
      (insertAll valOf fps c).entries.length =
        min (c.entries.length + fps.length) c.maxSize := by
  induction fps with
  | nil =>
      intro c _ _ hle _
      simp only [insertAll, List.foldl_nil, List.length_nil]
      omega
  | cons fp rest ih =>
      intro c hnd hfresh hle hcap
      have hm : lookupFp fp c.entries = none := hfresh fp (by simp)
      have hstep := getOrCompute_miss c fp (fun _ => valOf fp) hm
      have hrw : insertAll valOf (fp :: rest) c =
          insertAll valOf rest (getOrCompute c fp (fun _ => valOf fp)).2.1 := rfl
      rw [hrw, hstep]
      have hnd2 := List.nodup_cons.mp hnd
      have hlen2 :
          ((fp, valOf fp) ::
            (if c.maxSize ≤ c.entries.length then c.entries.dropLast else c.entries)).length =
          min (c.entries.length + 1) c.maxSize := by
        split
        · simp [List.length_dropLast]; omega
        · simp; omega
      have hfresh2 : ∀ q ∈ rest,
          lookupFp q ((fp, valOf fp) ::
            (if c.maxSize ≤ c.entries.length then c.entries.dropLast else c.entries)) = none := by
        intro q hq
        have hq1 : ¬fp = q := fun hh => hnd2.1 (hh ▸ hq)
        have hq2 := (lookupFp_none_iff q c.entries).mp (hfresh q (List.mem_cons_of_mem fp hq))
        rw [lookupFp_none_iff]
        intro e he
        rcases List.mem_cons.mp he with he1 | he2
        · rw [he1]
          exact hq1
        · exact hq2 e ((kept_sublist c.maxSize c.entries).subset he2)
      have hrec := ih ⟨(fp, valOf fp) ::
          (if c.maxSize ≤ c.entries.length then c.entries.dropLast else c.entries),
          c.maxSize⟩ hnd2.2 hfresh2 (by dsimp only; omega) hcap
      rw [hrec]
      dsimp only
      rw [hlen2]
      simp only [List.length_cons]
      omega

/-- C4: on a miss with the cache at its maximum entry count
(default 128), get_or_compute evicts exactly the least-recently-used
entry (the last of the recency order) before inserting the new entry
at the front, so the count stays at capacity; and inserting more
distinct fresh fingerprints than capacity into an empty cache leaves
exactly capacity entries. -/
theorem cache_lru_eviction {α : Type} (c : LruCache α) (fp : Nat)
    (compute : Unit → α) (hcap : 0 < c.maxSize)
    (hfull : c.entries.length = c.maxSize)
    (hmiss : lookupFp fp c.entries = none) :
    defaultCacheSize = 128 ∧
    (getOrCompute c fp compute).2.1.entries =
      (fp, compute ()) :: c.entries.dropLast ∧
    (getOrCompute c fp compute).2.1.entries.length = c.maxSize ∧
    ∀ (valOf : Nat → α) (fps : List Nat), fps.Nodup → c.maxSize < fps.length →
      (insertAll valOf fps (emptyCache α c.maxSize)).entries.length = c.maxSize := by
  have hstep := getOrCompute_miss c fp compute hmiss
  refine ⟨rfl, ?_, ?_, ?_⟩
  · rw [hstep]
    simp [hfull]
  · rw [hstep]
    simp only [List.length_cons]
    rw [if_pos (Nat.le_of_eq hfull.symm)]
    simp [List.length_dropLast]
    omega
  · intro valOf fps hnd hgt
    have h := insertAll_length valOf fps (emptyCache α c.maxSize) hnd
      (by intro q _; rfl) (by simp [emptyCache]) hcap
    rw [h]
    simp [emptyCache]
    omega

/-- A concrete two-entry cache of capacity two used by the cache
witnesses. -/
def demoCache : LruCache Nat := ⟨[(1, 10), (2, 20)], 2⟩

/-- Witness for C4 at the concrete full cache: inserting the absent
fingerprint 3 keeps the first entry, drops the last, and inserting
three distinct fingerprints into an empty capacity-two cache leaves
two entries. -/
theorem cache_lru_eviction_witness :
    (0 < demoCache.maxSize ∧ demoCache.entries.length = demoCache.maxSize ∧
      lookupFp 3 demoCache.entries = none) ∧
    (getOrCompute demoCache 3 (fun _ => (30 : Nat))).2.1.entries =
      (3, 30) :: demoCache.entries.dropLast ∧
    (insertAll (fun n => n) [5, 6, 7] (emptyCache Nat demoCache.maxSize)).entries.length =
      demoCache.maxSize :=
  ⟨⟨by decide, by decide, by decide⟩,
   (cache_lru_eviction demoCache 3 (fun _ => (30 : Nat)) (by decide) (by decide)
      (by decide)).2.1,
   (cache_lru_eviction demoCache 3 (fun _ => (30 : Nat)) (by decide) (by decide)
      (by decide)).2.2.2 (fun n => n) [5, 6, 7] (by decide) (by decide)⟩

/-- Every cache operation preserves distinctness of the stored
fingerprints, so a fingerprint never has two entries. -/
lemma keys_nodup_preserved {α : Type} (c : LruCache α) (fp : Nat)
    (f : Unit → α) (h : (keysOf c.entries).Nodup) :
    (keysOf (getOrCompute c fp f).2.1.entries).Nodup := by
  cases hf : c.entries.find? (fun e => e.1 == fp) with
  | some e =>
      rw [getOrCompute_hit c fp f e hf]
      simp only [keysOf, List.map_cons]
      refine List.nodup_cons.mpr ⟨?_, ?_⟩
      · intro hmem
        rcases List.mem_map.mp hmem with ⟨e2, he2, hfst⟩
        have := List.of_mem_filter he2
        simp only [Bool.not_eq_eq_eq_not, Bool.not_true, beq_eq_false_iff_ne] at this
        exact this hfst
      · exact h.sublist (List.Sublist.map Prod.fst (List.filter_sublist c.entries))
  | none =>
      have hmiss : lookupFp fp c.entries = none := by simp [lookupFp, hf]
      rw [getOrCompute_miss c fp f hmiss]
      simp only [keysOf, List.map_cons]
      refine List.nodup_cons.mpr ⟨?_, ?_⟩
      · intro hmem
        rcases List.mem_map.mp hmem with ⟨e2, he2, hfst⟩
        have hin := (kept_sublist c.maxSize c.entries).subset he2
        exact (lookupFp_none_iff fp c.entries).mp hmiss e2 hin hfst
      · exact h.sublist (List.Sublist.map Prod.fst (kept_sublist c.maxSize c.entries))

/-- C5: get_or_compute on a stored fingerprint returns the stored
result with zero compute_fn invocations, and every cache operation
preserves the at-most-one-entry-per-fingerprint invariant. -/
theorem cache_hit_no_compute {α : Type} (c : LruCache α) (fp : Nat)
    (compute : Unit → α) (v : α) (h : lookupFp fp c.entries = some v) :
    (getOrCompute c fp compute).1 = v ∧
    (getOrCompute c fp compute).2.2 = 0 ∧
    ∀ (c2 : LruCache α) (fp2 : Nat) (f2 : Unit → α),
      (keysOf c2.entries).Nodup →
      (keysOf (getOrCompute c2 fp2 f2).2.1.entries).Nodup := by
  rcases Option.map_eq_some'.mp h with ⟨e, hfind, hsnd⟩
  have hstep := getOrCompute_hit c fp compute e hfind
  refine ⟨?_, ?_, ?_⟩
  · rw [hstep]
    exact hsnd
  · rw [hstep]
  · intro c2 fp2 f2 hnd
    exact keys_nodup_preserved c2 fp2 f2 hnd

/-- Witness for C5 at the concrete cache: fingerprint 1 is stored, so
get_or_compute returns the stored value 10 and performs zero
compute_fn invocations. -/
theorem cache_hit_no_compute_witness :
    lookupFp 1 demoCache.entries = some 10 ∧
    (getOrCompute demoCache 1 (fun _ => (99 : Nat))).1 = 10 ∧
    (getOrCompute demoCache 1 (fun _ => (99 : Nat))).2.2 = 0 :=
  ⟨by decide,
   (cache_hit_no_compute demoCache 1 (fun _ => (99 : Nat)) 10 (by decide)).1,
   (cache_hit_no_compute demoCache 1 (fun _ => (99 : Nat)) 10 (by decide)).2.1⟩

/-- The eight per-class vote counts partition the vote list. -/
lemma sum_count_votes (l : List (Fin 8)) :
    l.count 0 + l.count 1 + l.count 2 + l.count 3 + l.count 4 + l.count 5 +
      l.count 6 + l.count 7 = l.length := by
  induction l with
  | nil => rfl
  | cons a t ih =>
      fin_cases a <;> simp [List.count_cons] <;> omega

/-- The running best of the arg-max fold dominates the start value
and every folded index. -/
lemma foldl_argmax_ge (f : Fin 8 → Rat) (l : List (Fin 8)) :
    ∀ b : Fin 8,
      f b ≤ f (l.foldl (fun best i => if f best < f i then i else best) b) ∧
      ∀ i ∈ l, f i ≤ f (l.foldl (fun best i => if f best < f i then i else best) b) := by
  induction l with
  | nil =>
      intro b
      exact ⟨le_refl _, by simp⟩
  | cons a t ih =>
      intro b
      have hstep : f b ≤ f (if f b < f a then a else b) ∧
          f a ≤ f (if f b < f a then a else b) := by
        by_cases hba : f b < f a
        · rw [if_pos hba]
          exact ⟨le_of_lt hba, le_refl _⟩
        · rw [if_neg hba]
          exact ⟨le_refl _, le_of_not_lt hba⟩
      have hrest := ih (if f b < f a then a else b)
      constructor
      · exact le_trans hstep.1 hrest.1
      · intro i hi
        rcases List.mem_cons.mp hi with hi1 | hi2
        · rw [hi1]
          exact le_trans hstep.2 hrest.1
        · exact hrest.2 i hi2

/-- The arg-max index dominates every class index. -/
lemma argmaxFin_ge (f : Fin 8 → Rat) (j : Fin 8) : f j ≤ f (argmaxFin f) := by
  have h := foldl_argmax_ge f [1, 2, 3, 4, 5, 6, 7] 0
  fin_cases j
  · exact h.1
  · exact h.2 1 (by decide)
  · exact h.2 2 (by decide)
  · exact h.2 3 (by decide)
  · exact h.2 4 (by decide)
  · exact h.2 5 (by decide)
  · exact h.2 6 (by decide)
  · exact h.2 7 (by decide)

/-- Class probabilities of a non-empty ensemble sum to exactly one. -/
lemma probList_sum (m : ForestModel) (v : List Rat) (hm : m.trees ≠ []) :
    ((probList m v).map Prod.snd).sum = 1 := by
  have hlen : (votes m v).length = m.trees.length := by
    simp [votes]
  have hn : ((m.trees.length : Nat) : Rat) ≠ 0 := by
    have := List.length_pos.mpr hm
    exact_mod_cast Nat.pos_iff_ne_zero.mp this
  have hcount := sum_count_votes (votes m v)
  have hsum : ((probList m v).map Prod.snd).sum =
      (((votes m v).count 0 : Rat) + (votes m v).count 1 + (votes m v).count 2 +
        (votes m v).count 3 + (votes m v).count 4 + (votes m v).count 5 +
        (votes m v).count 6 + (votes m v).count 7) / (m.trees.length : Rat) := by
    simp only [probList, List.map_cons, List.map_nil, List.sum_cons, List.sum_nil,
      classProb]
    field_simp
    ring
  rw [hsum]
  have hcast : (((votes m v).count 0 : Rat) + (votes m v).count 1 + (votes m v).count 2 +
      (votes m v).count 3 + (votes m v).count 4 + (votes m v).count 5 +
      (votes m v).count 6 + (votes m v).count 7) = ((m.trees.length : Nat) : Rat) := by
    rw [← hlen]
    exact_mod_cast hcount
  rw [hcast]
  exact div_self hn

/-- Each class probability lies between zero and one. -/
lemma classProb_mem_unit (m : ForestModel) (v : List Rat) (hm : m.trees ≠ [])
    (i : Fin 8) : 0 ≤ classProb m v i ∧ classProb m v i ≤ 1 := by
  have hpos : (0 : Rat) < (m.trees.length : Rat) := by
    exact_mod_cast List.length_pos.mpr hm
  have hle : (votes m v).count i ≤ m.trees.length := by
    have := List.count_le_length i (votes m v)
    simpa [votes] using this
  constructor
  · exact div_nonneg (by positivity) (le_of_lt hpos)
  · rw [classProb, div_le_one hpos]
    exact_mod_cast hle

/-- C3: for every feature vector the classifier accepts (30 columns)
and every non-empty ensemble, predict returns a probability for every
label of the fixed closed class set, each probability lies in the
unit interval, the probabilities sum to exactly one (hence within the
one-in-a-million tolerance), and the returned prediction is the
arg-max class with its probability as the confidence. -/
theorem classifier_distribution (m : ForestModel) (v : List Rat)
    (hm : m.trees ≠ []) (hv : v.length = 30) :
    predict m v =
      .ok ⟨classLabels.getD (bestClass m v).val "",
        classProb m v (bestClass m v), probList m v⟩ ∧
    (probList m v).map Prod.fst = classLabels ∧
    (∀ p ∈ probList m v, 0 ≤ p.2 ∧ p.2 ≤ 1) ∧
    ((probList m v).map Prod.snd).sum = 1 ∧
    |((probList m v).map Prod.snd).sum - 1| < 1 / 1000000 ∧
    ∀ i : Fin 8, classProb m v i ≤ classProb m v (bestClass m v) := by
  refine ⟨?_, rfl, ?_, probList_sum m v hm, ?_, ?_⟩
  · rw [predict, if_pos hv]
  · intro p hp
    have : ∃ i : Fin 8, p.2 = classProb m v i := by
      simp only [probList, List.mem_cons, List.not_mem_nil, or_false] at hp
      rcases hp with h | h | h | h | h | h | h | h <;>
        exact ⟨_, by rw [h]⟩
    rcases this with ⟨i, hi⟩
    rw [hi]
    exact classProb_mem_unit m v hm i
  · rw [probList_sum m v hm]
    norm_num
  · intro i
    exact argmaxFin_ge (fun j => classProb m v j) i

/-- A 30-column zero feature vector used by the C3 witness. -/
def demoVector : List Rat := List.replicate 30 0

/-- Witness for C3 at the one-tree demo ensemble and the zero
30-column vector. -/
theorem classifier_distribution_witness :
    demoModel.trees ≠ [] ∧ demoVector.length = 30 ∧
    (predict demoModel demoVector =
      .ok ⟨classLabels.getD (bestClass demoModel demoVector).val "",
        classProb demoModel demoVector (bestClass demoModel demoVector),
        probList demoModel demoVector⟩ ∧
     (probList demoModel demoVector).map Prod.fst = classLabels ∧
     (∀ p ∈ probList demoModel demoVector, 0 ≤ p.2 ∧ p.2 ≤ 1) ∧
     ((probList demoModel demoVector).map Prod.snd).sum = 1 ∧
     |((probList demoModel demoVector).map Prod.snd).sum - 1| < 1 / 1000000 ∧
     ∀ i : Fin 8, classProb demoModel demoVector i ≤
       classProb demoModel demoVector (bestClass demoModel demoVector)) :=
  ⟨by simp [demoModel], by simp [demoVector],
    classifier_distribution demoModel demoVector (by simp [demoModel])
      (by simp [demoVector])⟩

end AcoustixPulse
